import Mathlib

/-!
Verification of the `vega` spaCy pipeline component package.

The repository consists of two Python modules:

* `src/pipeline/matcher_component.py` — a `MatcherComponent` class that, on
  construction, registers a boolean `is_<attribute_name>` custom extension on
  tokens and a `has_<attribute_name>` getter extension on docs and spans, and
  whose `__call__` runs an injected spaCy `Matcher` over a doc, sets the
  token flag on every token of every matched span, and (optionally) merges
  each matched span into a single token inside one `doc.retokenize()` block.
* `src/pipeline/utils.py` — `remove_tokens_custom_attributes`, which resets
  every registered token extension of every token of a list of spans to
  `False`.

The shallow embedding below models the host (spaCy) object model explicitly:

* a `Token` carries its text and an association list of custom extension
  values (`token._`); reading an unset extension yields the registered
  default `False`;
* a `Doc` carries a numeric object identity (Python object identity, so that
  "returns the very same object, not a copy" is expressible) and its token
  list; a span is a contiguous token range `[start, end)` of a doc;
* the injected `Matcher` is an arbitrary function from a doc to a list of
  `(match_id, start, end)` triples;
* the host retokenizer is modelled by `retokenizeAll`: the merges queued
  inside one `with doc.retokenize()` block all refer to the tokenization
  current at entry to the block and are applied together at block exit
  (later spans first, so that earlier offsets stay valid), each merge
  replacing the span's tokens by a single merged token.  The merged token's
  custom attributes are those of the first token of the span, matching
  spaCy's storage of underscore data under the span's starting character
  offset.
-/


namespace Vega

/-! ### Tokens and documents -/

/-- A spaCy `Token`, reduced to the data this repository touches: its surface
text and its custom extension attribute values (`token._`), stored as an
association list from extension name to boolean value. -/
structure Token where
  text : String
  exts : List (String × Bool)
deriving Repr, DecidableEq

/-- Reading a custom extension value, `token._.get(name)`.  An extension that
was never explicitly set reads as the registered default `False` (the only
default used by this repository). -/
def Token.getExt (t : Token) (name : String) : Bool :=
  (t.exts.lookup name).getD false

/-- Writing a custom extension value, `token._.set(name, b)`. -/
def Token.setExt (t : Token) (name : String) (b : Bool) : Token :=
  { t with exts := (name, b) :: t.exts.filter fun p => p.1 != name }

/-- A spaCy `Doc`: a Python object identity (so that preservation of the
identity of a mutated-in-place doc is expressible) and its token list. -/
structure Doc where
  id : Nat
  tokens : List Token
deriving Repr, DecidableEq

/-- The tokens of the span `doc[s:e]` (`Span(doc, s, e)`). -/
def Doc.spanTokens (d : Doc) (s e : Nat) : List Token :=
  (d.tokens.drop s).take (e - s)

/-- Iterated in-place token update: for each range `(s, e)` in `rs` (in
order), apply `f` to every token whose index lies in `[s, e)`.  This is the
shape of both loops of the repository: `for _, start, end in matches: for
token in Span(doc, start, end): token._.set(...)` and the span/token loops of
`remove_tokens_custom_attributes`. -/
def Doc.updateRanges (f : Token → Token) (d : Doc) (rs : List (Nat × Nat)) : Doc :=
  rs.foldl
    (fun acc r =>
      { acc with
        tokens := acc.tokens.mapIdx fun i t => if r.1 ≤ i ∧ i < r.2 then f t else t })
    d

/-! ### The host retokenizer

The merge branch of `__call__` opens a single `with doc.retokenize() as
retokenizer:` block, queues `retokenizer.merge(Span(doc, start, end))` for
every match, and the host applies all queued merges when the block exits.
All queued spans therefore refer to the tokenization current at block
entry.  We model the bulk application by merging the queued spans from the
last one backwards, so that each earlier span's offsets are still valid
when its turn comes; for the sorted, pairwise-disjoint spans the host
accepts, this agrees with its semantics (theorem
`retokenizeAll_eq_mergedSpec`). -/

/-- Merging a list of tokens into a single token.  The merged token's text is
the concatenation of the texts and its custom extension data is the data of
the first token of the span (spaCy keeps underscore data keyed by character
offset, and the merged token starts at the first token's offset). -/
def mergeTokens (ts : List Token) : Token :=
  { text := ts.foldl (fun acc t => acc ++ t.text) ""
    exts := (ts.head?.map Token.exts).getD [] }

/-- Merging the single token range `[s, e)`; out-of-range requests leave the
token list unchanged (the host would raise instead of reaching this state). -/
def mergeOne (ts : List Token) (s e : Nat) : List Token :=
  if s < e ∧ e ≤ ts.length then
    ts.take s ++ mergeTokens ((ts.drop s).take (e - s)) :: ts.drop e
  else ts

/-- Applying every merge queued in one retokenize block: all spans refer to
the entry tokenization, and the last-queued span is applied first so that the
earlier spans' offsets remain valid. -/
def retokenizeAll (ts : List Token) : List (Nat × Nat) → List Token
  | [] => ts
  | (s, e) :: rest => mergeOne (retokenizeAll ts rest) s e

/-- The `(start, end)` token ranges of a list of matcher results. -/
def spansOfMatches (ms : List (Nat × Nat × Nat)) : List (Nat × Nat) :=
  ms.map fun m => (m.2.1, m.2.2)

/-- The spans are listed left to right, pairwise disjoint, nonempty, start no
earlier than `lo` and end within `len`.  These are exactly the span lists the
host retokenizer accepts without raising. -/
def spansSorted (lo len : Nat) : List (Nat × Nat) → Bool
  | [] => true
  | (s, e) :: rest => decide (lo ≤ s) && decide (s < e) && decide (e ≤ len) && spansSorted e len rest

/-- Intended result of a bulk merge of sorted disjoint spans: each span of
the input is replaced, in place, by the single token merging its tokens. -/
def mergedSpec (ts : List Token) : List (Nat × Nat) → List Token
  | [] => ts
  | (s, e) :: rest =>
      ts.take s ++ mergeTokens ((ts.drop s).take (e - s)) ::
        mergedSpec (ts.drop e) (rest.map fun p => (p.1 - e, p.2 - e))
termination_by l => l.length
decreasing_by simp

/-! ### Custom extension registration (`set_extension`) -/

/-- What a registration records: either a stored value with a default (the
`Token.set_extension(self.is_attribute, default=False, ...)` form) or a getter
closing over the component's token attribute name (the
`set_extension(self.has_attribute, getter=self.get_attribute, ...)` form). -/
inductive ExtSpec where
  | boolDefault (b : Bool)
  | getter (isAttrName : String)
deriving Repr, DecidableEq

/-- A per-class extension registry (one each for `Token`, `Doc`, `Span`). -/
abbrev ExtRegistry := List (String × ExtSpec)

/-- The host framework's `set_extension`: refuses to re-register an existing
name unless `force` is set, in which case it silently overwrites. -/
def set_extension (reg : ExtRegistry) (name : String) (spec : ExtSpec) (force : Bool) :
    Option ExtRegistry :=
  if (reg.lookup name).isSome && !force then
    none
  else
    some ((name, spec) :: reg.filter fun p => p.1 != name)

/-- The always-succeeding result of `set_extension` with `force=True`. -/
def setExtensionForce (reg : ExtRegistry) (name : String) (spec : ExtSpec) : ExtRegistry :=
  (name, spec) :: reg.filter fun p => p.1 != name

/-- The three host extension registries touched by the constructor. -/
structure ExtensionState where
  tokenExts : ExtRegistry
  docExts : ExtRegistry
  spanExts : ExtRegistry
deriving Repr, DecidableEq

/-! ### The pipeline component -/

/-- The `MatcherComponent` object.  The injected spaCy `Matcher` is modelled
as an opaque function from a doc to its list of `(match_id, start, end)`
results. -/
structure MatcherComponent where
  matcher : Doc → List (Nat × Nat × Nat)
  name : String
  isAttribute : String
  hasAttribute : String
  mergeOnMatch : Bool

/-- The constructor `MatcherComponent.__init__`: stores the fields, derives
`is_<attribute_name>` and `has_<attribute_name>`, and registers the three
custom extensions with `force=True` (so registration never raises, see
`set_extension_force_eq`). -/
def MatcherComponent.init (matcher : Doc → List (Nat × Nat × Nat))
    (component_name attribute_name : String) (merge_on_match : Bool)
    (st : ExtensionState) : MatcherComponent × ExtensionState :=
  let is_attribute := "is_" ++ attribute_name
  let has_attribute := "has_" ++ attribute_name
  ({ matcher := matcher
     name := component_name
     isAttribute := is_attribute
     hasAttribute := has_attribute
     mergeOnMatch := merge_on_match },
   { tokenExts := setExtensionForce st.tokenExts is_attribute (ExtSpec.boolDefault false)
     docExts := setExtensionForce st.docExts has_attribute (ExtSpec.getter is_attribute)
     spanExts := setExtensionForce st.spanExts has_attribute (ExtSpec.getter is_attribute) })

/-- The flag-setting loop of `__call__`: `for _, start, end in matches:
entity = Span(doc, start, end); for token in entity: token._.set(is_attribute,
True)`. -/
def Doc.flagMatches (d : Doc) (isAttribute : String) (matchList : List (Nat × Nat × Nat)) : Doc :=
  Doc.updateRanges (fun token => token.setExt isAttribute true) d (spansOfMatches matchList)

/-- `MatcherComponent.__call__`: run the injected matcher; if it produced any
match, set the token flag on every token of every matched span and, when
`merge_on_match` is set, merge every matched span inside one retokenize
block; finally return the doc itself.  In the merge branch the source
interleaves flag-setting with queueing `retokenizer.merge(entity)`, but every
queued merge is applied only at block exit, after all the flags are set, so
the effect is the flag pass followed by the bulk merge. -/
def MatcherComponent.call (c : MatcherComponent) (doc : Doc) : Doc :=
  let matchList := c.matcher doc
  if matchList.isEmpty then doc
  else
    let flagged := doc.flagMatches c.isAttribute matchList
    if c.mergeOnMatch then
      { flagged with tokens := retokenizeAll flagged.tokens (spansOfMatches matchList) }
    else
      flagged

/-- `MatcherComponent.get_attribute`, the getter backing the `has_` extension
of docs and spans: `any([token._.get(self.is_attribute) for token in span])`.
It receives the token sequence of the doc or span it is read on. -/
def MatcherComponent.get_attribute (c : MatcherComponent) (span : List Token) : Bool :=
  (span.map fun token => token.getExt c.isAttribute).any id

/-! ### `utils.remove_tokens_custom_attributes` -/

/-- The innermost loop of `remove_tokens_custom_attributes`: `for extension
in token._._extensions.keys(): token._.set(extension, False)`, where the keys
are the names of every extension registered on `Token`. -/
def clearTokenExts (tokenExtensionNames : List String) (token : Token) : Token :=
  tokenExtensionNames.foldl (fun tok extension => tok.setExt extension false) token

/-- `remove_tokens_custom_attributes(spans)`: set every registered token
extension of every token of every span to `False`.  The spans are ranges of
the given doc; `tokenExtensionNames` models the host's registry of `Token`
extensions (`token._._extensions.keys()`). -/
def remove_tokens_custom_attributes (tokenExtensionNames : List String)
    (doc : Doc) (spans : List (Nat × Nat)) : Doc :=
  Doc.updateRanges (clearTokenExts tokenExtensionNames) doc spans

/-! ### The second near-duplicate component implementation -/

/-- Modelled from the spec: the repository's second near-duplicate
implementation of the matcher component is not under `src/`; per the spec it
differs from `MatcherComponent` "only in how attribute names are derived and
how the matcher is injected".  This model therefore receives the two
attribute names ready-made (instead of deriving them from `attribute_name`)
and builds its matcher from injected patterns and a pattern-compilation
function (instead of receiving a ready `Matcher` object). -/
structure AltMatcherComponent where
  compile : List String → Doc → List (Nat × Nat × Nat)
  patterns : List String
  isAttribute : String
  hasAttribute : String
  mergeOnMatch : Bool

/-- Modelled from the spec: the `__call__` of the second implementation,
with the same body as `MatcherComponent.__call__` but reading the matcher
from the compiled patterns. -/
def AltMatcherComponent.call (c : AltMatcherComponent) (doc : Doc) : Doc :=
  let matchList := c.compile c.patterns doc
  if matchList.isEmpty then doc
  else
    let flagged := doc.flagMatches c.isAttribute matchList
    if c.mergeOnMatch then
      { flagged with tokens := retokenizeAll flagged.tokens (spansOfMatches matchList) }
    else
      flagged

/-! ### Concrete inputs used by the witness theorems -/

def exDoc : Doc :=
  { id := 37
    tokens := [{ text := "t0", exts := [] }, { text := "t1", exts := [] },
               { text := "t2", exts := [] }, { text := "t3", exts := [] }] }

def exDoc2 : Doc :=
  { id := 2
    tokens := [{ text := "a", exts := [("is_email", true)] },
               { text := "b", exts := [("is_email", true)] }] }

def exMatcherFn : Doc → List (Nat × Nat × Nat) := fun _ => [(5, 0, 2), (9, 3, 4)]

def exState : ExtensionState :=
  { tokenExts := [("other", ExtSpec.boolDefault true)], docExts := [], spanExts := [] }

def exComponent : MatcherComponent :=
  (MatcherComponent.init exMatcherFn "email_component" "email" true exState).1

def exComponentNoMerge : MatcherComponent := { exComponent with mergeOnMatch := false }

def exComponentNoMatch : MatcherComponent := { exComponent with matcher := fun _ => [] }

/-! ### Association-list and token attribute lemmas -/

/-- Looking a key up after filtering out a *different* key is unchanged. -/
theorem lookup_filter_ne {β : Type} (l : List (String × β)) (n m : String) (h : m ≠ n) :
    (l.filter fun p => p.1 != n).lookup m = l.lookup m := by
  have hmn : (m == n) = false := beq_eq_false_iff_ne.mpr h
  have hnm : (n == m) = false := beq_eq_false_iff_ne.mpr fun e => h e.symm
  induction l with
  | nil => rfl
  | cons p l ih =>
    obtain ⟨a, b⟩ := p
    by_cases ha : a = n
    · have h1 : (a != n) = false := by simp [ha]
      subst ha
      simp [List.filter_cons, h1, List.lookup, hmn, hnm, ih]
    · have h1 : (a != n) = true := by simp [ha]
      by_cases hm2 : a = m
      · subst hm2
        simp [List.filter_cons, h1, List.lookup]
      · have h2 : (a == m) = false := beq_eq_false_iff_ne.mpr hm2
        simp [List.filter_cons, h1, List.lookup, h2, ih]

/-- Filtering out a key twice is the same as filtering it out once. -/
theorem filter_key_ne_idem {β : Type} (l : List (String × β)) (n : String) :
    ((l.filter fun p => p.1 != n).filter fun p => p.1 != n)
      = l.filter fun p => p.1 != n := by
  rw [List.filter_filter]
  exact List.filter_congr fun a _ => Bool.and_self _

theorem Token.getExt_setExt_self (t : Token) (n : String) (b : Bool) :
    (t.setExt n b).getExt n = b := by
  simp [Token.setExt, Token.getExt, List.lookup]

theorem Token.getExt_setExt_ne (t : Token) (n m : String) (b : Bool) (h : m ≠ n) :
    (t.setExt n b).getExt m = t.getExt m := by
  have h2 : (n == m) = false := beq_eq_false_iff_ne.mpr fun e => h e.symm
  have h3 : (m == n) = false := beq_eq_false_iff_ne.mpr h
  simp [Token.setExt, Token.getExt, List.lookup, h2, h3, lookup_filter_ne _ _ _ h]

theorem Token.text_setExt (t : Token) (n : String) (b : Bool) :
    (t.setExt n b).text = t.text := rfl

/-! ### Bulk token update lemmas -/

theorem Doc.updateRanges_id (f : Token → Token) (rs : List (Nat × Nat)) :
    ∀ d : Doc, (Doc.updateRanges f d rs).id = d.id := by
  induction rs with
  | nil => intro d; rfl
  | cons r rs ih => intro d; exact ih _

theorem Doc.updateRanges_length (f : Token → Token) (rs : List (Nat × Nat)) :
    ∀ d : Doc, (Doc.updateRanges f d rs).tokens.length = d.tokens.length := by
  induction rs with
  | nil => intro d; rfl
  | cons r rs ih =>
    intro d
    rw [Doc.updateRanges, List.foldl_cons, ← Doc.updateRanges]
    rw [ih]
    exact List.length_mapIdx

/-- One step of `updateRanges`, read off on a single token index. -/
theorem Doc.updateRanges_cons_get (f : Token → Token) (r : Nat × Nat)
    (rs : List (Nat × Nat)) (d : Doc) :
    Doc.updateRanges f d (r :: rs)
      = Doc.updateRanges f
          { d with tokens := d.tokens.mapIdx fun i t => if r.1 ≤ i ∧ i < r.2 then f t else t }
          rs := rfl

/-- A token property preserved by `f` is preserved by the whole update. -/
theorem Doc.updateRanges_preserves (f : Token → Token) (P : Token → Prop)
    (hf : ∀ t, P t → P (f t)) (rs : List (Nat × Nat)) :
    ∀ (d : Doc) (i : Nat) (h1 : i < d.tokens.length)
      (h2 : i < (Doc.updateRanges f d rs).tokens.length),
      P (d.tokens.get ⟨i, h1⟩) →
      P ((Doc.updateRanges f d rs).tokens.get ⟨i, h2⟩) := by
  induction rs with
  | nil => intro d i h1 h2 hp; exact hp
  | cons r rs ih =>
    intro d i h1 h2 hp
    have hlen : i <
        (d.tokens.mapIdx fun j t => if r.1 ≤ j ∧ j < r.2 then f t else t).length := by
      rw [List.length_mapIdx]; exact h1
    exact ih
      { d with tokens := d.tokens.mapIdx fun j t => if r.1 ≤ j ∧ j < r.2 then f t else t }
      i hlen h2
      (by
        rw [List.get_mapIdx d.tokens _ i h1 hlen]
        by_cases hc : r.1 ≤ i ∧ i < r.2
        · simp only [hc, if_true]; exact hf _ hp
        · simp only [hc, if_false]; exact hp)

/-- A token property established by `f` survives the whole update, once some
range of `rs` covers the index. -/
theorem Doc.updateRanges_establishes (f : Token → Token) (P : Token → Prop)
    (hf : ∀ t, P (f t)) (rs : List (Nat × Nat)) :
    ∀ (d : Doc) (i : Nat) (h2 : i < (Doc.updateRanges f d rs).tokens.length),
      (∃ r ∈ rs, r.1 ≤ i ∧ i < r.2) →
      P ((Doc.updateRanges f d rs).tokens.get ⟨i, h2⟩) := by
  induction rs with
  | nil =>
    intro d i h2 hex
    obtain ⟨r, hr, _⟩ := hex
    exact absurd hr (List.not_mem_nil r)
  | cons r rs ih =>
    intro d i h2 hex
    obtain ⟨r', hr', hlo, hhi⟩ := hex
    have hi : i < d.tokens.length := by
      have := Doc.updateRanges_length f (r :: rs) d
      rw [this] at h2
      exact h2
    have hlen : i <
        (d.tokens.mapIdx fun j t => if r.1 ≤ j ∧ j < r.2 then f t else t).length := by
      rw [List.length_mapIdx]; exact hi
    rcases List.mem_cons.mp hr' with he | hrest
    · -- the head range covers `i`: `f` fires here and the property survives
      -- the remaining ranges
      subst he
      exact Doc.updateRanges_preserves f P (fun t _ => hf t) rs
        { d with tokens := d.tokens.mapIdx fun j t => if r'.1 ≤ j ∧ j < r'.2 then f t else t }
        i hlen h2
        (by
          rw [List.get_mapIdx d.tokens _ i hi hlen]
          simp only [hlo, hhi, and_self, if_true]
          exact hf _)
    · exact ih
        { d with tokens := d.tokens.mapIdx fun j t => if r.1 ≤ j ∧ j < r.2 then f t else t }
        i h2 ⟨r', hrest, hlo, hhi⟩

/-- A token whose index is covered by no range of `rs` is untouched. -/
theorem Doc.updateRanges_outside (f : Token → Token) (rs : List (Nat × Nat)) :
    ∀ (d : Doc) (i : Nat) (h1 : i < d.tokens.length)
      (h2 : i < (Doc.updateRanges f d rs).tokens.length),
      (∀ r ∈ rs, i < r.1 ∨ r.2 ≤ i) →
      (Doc.updateRanges f d rs).tokens.get ⟨i, h2⟩ = d.tokens.get ⟨i, h1⟩ := by
  induction rs with
  | nil => intro d i h1 h2 hout; rfl
  | cons r rs ih =>
    intro d i h1 h2 hout
    have hlen : i <
        (d.tokens.mapIdx fun j t => if r.1 ≤ j ∧ j < r.2 then f t else t).length := by
      rw [List.length_mapIdx]; exact h1
    have hstep := ih
      { d with tokens := d.tokens.mapIdx fun j t => if r.1 ≤ j ∧ j < r.2 then f t else t }
      i hlen h2 fun r' hr' => hout r' (List.mem_cons_of_mem r hr')
    refine hstep.trans ?_
    rw [List.get_mapIdx d.tokens _ i h1 hlen]
    have hc : ¬(r.1 ≤ i ∧ i < r.2) := by
      rcases hout r (List.mem_cons_self r rs) with hlt | hge
      · exact fun hc => absurd hc.1 (Nat.not_le_of_lt hlt)
      · exact fun hc => absurd hc.2 (Nat.not_lt_of_le hge)
    simp only [hc, if_false]

/-! ### Retokenizer lemmas -/

theorem spansSorted_mem (spans : List (Nat × Nat)) :
    ∀ lo len : Nat, spansSorted lo len spans = true →
      ∀ p ∈ spans, lo ≤ p.1 ∧ p.1 < p.2 ∧ p.2 ≤ len := by
  induction spans with
  | nil =>
    intro lo len _ p hp
    exact absurd hp (List.not_mem_nil p)
  | cons q rest ih =>
    intro lo len h p hp
    obtain ⟨s, e⟩ := q
    rw [spansSorted] at h
    simp only [Bool.and_eq_true, decide_eq_true_eq] at h
    obtain ⟨⟨⟨hlo, hse⟩, hlen⟩, hrest⟩ := h
    rcases List.mem_cons.mp hp with he | hm
    · subst he; exact ⟨hlo, hse, hlen⟩
    · obtain ⟨h1, h2, h3⟩ := ih e len hrest p hm
      exact ⟨Nat.le_trans (Nat.le_trans hlo (Nat.le_of_lt hse)) h1, h2, h3⟩

/-- The first `lo` tokens are untouched by `mergedSpec` on spans past `lo`. -/
theorem mergedSpec_take (ts : List Token) (spans : List (Nat × Nat)) (lo len : Nat)
    (h : spansSorted lo len spans = true) (hlen : ts.length = len) :
    (mergedSpec ts spans).take lo = ts.take lo := by
  cases spans with
  | nil => rw [mergedSpec]
  | cons q rest =>
    obtain ⟨s, e⟩ := q
    rw [spansSorted] at h
    simp only [Bool.and_eq_true, decide_eq_true_eq] at h
    obtain ⟨⟨⟨hlo, hse⟩, hl⟩, _⟩ := h
    rw [mergedSpec]
    rw [List.take_append_of_le_length]
    · rw [List.take_take, Nat.min_eq_left hlo]
    · rw [List.length_take, hlen]
      exact Nat.le_trans hlo (Nat.le_min.mpr ⟨Nat.le_refl s, Nat.le_trans (Nat.le_of_lt hse) hl⟩)

/-- Dropping the prefix below every span commutes with `mergedSpec`, after
shifting the spans. -/
theorem mergedSpec_drop (ts : List Token) (spans : List (Nat × Nat)) (b len : Nat)
    (h : spansSorted b len spans = true) (hlen : ts.length = len) :
    (mergedSpec ts spans).drop b
      = mergedSpec (ts.drop b) (spans.map fun p => (p.1 - b, p.2 - b)) := by
  cases spans with
  | nil => rw [mergedSpec, List.map_nil, mergedSpec]
  | cons q rest =>
    obtain ⟨s, e⟩ := q
    rw [spansSorted] at h
    simp only [Bool.and_eq_true, decide_eq_true_eq] at h
    obtain ⟨⟨⟨hbs, hse⟩, hl⟩, hrest⟩ := h
    have hsl : s ≤ ts.length := by
      rw [hlen]; exact Nat.le_trans (Nat.le_of_lt hse) hl
    have hbe : b ≤ e := Nat.le_trans hbs (Nat.le_of_lt hse)
    rw [mergedSpec, List.map_cons, mergedSpec]
    simp only
    have e1 : (ts.drop b).drop (s - b) = ts.drop s := by
      rw [List.drop_drop]; congr 1; omega
    have e2 : e - b - (s - b) = e - s := by omega
    have e3 : (ts.drop b).drop (e - b) = ts.drop e := by
      rw [List.drop_drop]; congr 1; omega
    have e4 : (rest.map fun p => (p.1 - b, p.2 - b)).map
          (fun p => (p.1 - (e - b), p.2 - (e - b)))
        = rest.map fun p => (p.1 - e, p.2 - e) := by
      rw [List.map_map]
      refine List.map_congr_left fun p hp => ?_
      obtain ⟨hep, hpp, _⟩ := spansSorted_mem rest e len hrest p hp
      simp only [Function.comp]
      have hbp2 : e ≤ p.2 := Nat.le_trans hep (Nat.le_of_lt hpp)
      congr 1 <;> omega
    rw [e1, e2, e3, e4]
    rw [List.drop_append_of_le_length
      (by rw [List.length_take]; exact Nat.le_trans hbs (Nat.le_min.mpr ⟨Nat.le_refl s, hsl⟩))]
    rw [List.drop_take]

/-- Back-to-front application of the queued merges computes exactly the
intended bulk merge, for the sorted disjoint in-bounds span lists the host
retokenizer accepts. -/
theorem retokenizeAll_eq_mergedSpec (spans : List (Nat × Nat)) :
    ∀ (ts : List Token) (lo len : Nat),
      spansSorted lo len spans = true → ts.length = len →
      retokenizeAll ts spans = mergedSpec ts spans := by
  induction spans with
  | nil => intro ts lo len _ _; rw [retokenizeAll, mergedSpec]
  | cons q rest ih =>
    intro ts lo len h hlen
    obtain ⟨s, e⟩ := q
    rw [spansSorted] at h
    simp only [Bool.and_eq_true, decide_eq_true_eq] at h
    obtain ⟨⟨⟨hlo, hse⟩, hl⟩, hrest⟩ := h
    have hel : e ≤ ts.length := by rw [hlen]; exact hl
    have hsl : s ≤ ts.length := Nat.le_trans (Nat.le_of_lt hse) hel
    rw [retokenizeAll, ih ts e len hrest hlen]
    have htake : (mergedSpec ts rest).take e = ts.take e :=
      mergedSpec_take ts rest e len hrest hlen
    have hX : e ≤ (mergedSpec ts rest).length := by
      have hlt : ((mergedSpec ts rest).take e).length = e := by
        rw [htake, List.length_take]
        exact Nat.min_eq_left hel
      rw [List.length_take] at hlt
      omega
    rw [mergeOne, if_pos ⟨hse, hX⟩, mergedSpec]
    congr 1
    · calc (mergedSpec ts rest).take s
          = ((mergedSpec ts rest).take e).take s := by
            rw [List.take_take, Nat.min_eq_left (Nat.le_of_lt hse)]
        _ = ts.take s := by
            rw [htake, List.take_take, Nat.min_eq_left (Nat.le_of_lt hse)]
    · congr 1
      · congr 1
        calc ((mergedSpec ts rest).drop s).take (e - s)
            = ((mergedSpec ts rest).take e).drop s := by rw [List.drop_take]
          _ = (ts.take e).drop s := by rw [htake]
          _ = (ts.drop s).take (e - s) := by rw [List.drop_take]
      · exact mergedSpec_drop ts rest e len hrest hlen

/-! ### Helper lemmas about registration, `__call__` and clearing -/

theorem set_extension_force_eq (reg : ExtRegistry) (name : String) (spec : ExtSpec) :
    set_extension reg name spec true = some (setExtensionForce reg name spec) := by
  simp [set_extension, setExtensionForce]

theorem MatcherComponent.call_eq_of_empty (c : MatcherComponent) (doc : Doc)
    (h : c.matcher doc = []) : c.call doc = doc := by
  simp [MatcherComponent.call, h]

theorem MatcherComponent.call_eq_flag_of_not_merge (c : MatcherComponent) (doc : Doc)
    (h : c.mergeOnMatch = false) :
    c.call doc = doc.flagMatches c.isAttribute (c.matcher doc) := by
  by_cases hE : (c.matcher doc).isEmpty
  · have he : c.matcher doc = [] := List.isEmpty_iff.mp hE
    rw [MatcherComponent.call_eq_of_empty c doc he, he]
    rfl
  · simp [MatcherComponent.call, hE, h]

theorem MatcherComponent.call_tokens_of_merge (c : MatcherComponent) (doc : Doc)
    (h : c.mergeOnMatch = true) :
    (c.call doc).tokens
      = retokenizeAll (doc.flagMatches c.isAttribute (c.matcher doc)).tokens
          (spansOfMatches (c.matcher doc)) := by
  by_cases hE : (c.matcher doc).isEmpty
  · have he : c.matcher doc = [] := List.isEmpty_iff.mp hE
    rw [MatcherComponent.call_eq_of_empty c doc he, he]
    rfl
  · simp [MatcherComponent.call, hE, h]

theorem MatcherComponent.call_id (c : MatcherComponent) (doc : Doc) :
    (c.call doc).id = doc.id := by
  by_cases hE : (c.matcher doc).isEmpty
  · rw [MatcherComponent.call_eq_of_empty c doc (List.isEmpty_iff.mp hE)]
  · by_cases hM : c.mergeOnMatch
    · have := MatcherComponent.call_tokens_of_merge c doc hM
      have hid : (c.call doc).id = (doc.flagMatches c.isAttribute (c.matcher doc)).id := by
        simp [MatcherComponent.call, hE, hM]
      rw [hid]
      exact Doc.updateRanges_id _ _ doc
    · rw [MatcherComponent.call_eq_flag_of_not_merge c doc (Bool.eq_false_iff.mpr hM)]
      exact Doc.updateRanges_id _ _ doc

theorem clearTokenExts_text (names : List String) :
    ∀ t : Token, (clearTokenExts names t).text = t.text := by
  induction names with
  | nil => intro t; rfl
  | cons n rest ih =>
    intro t
    rw [clearTokenExts, List.foldl_cons, ← clearTokenExts]
    rw [ih, Token.text_setExt]

theorem clearTokenExts_preserves_false (names : List String) (n : String) :
    ∀ t : Token, t.getExt n = false → (clearTokenExts names t).getExt n = false := by
  induction names with
  | nil => intro t ht; exact ht
  | cons m rest ih =>
    intro t ht
    rw [clearTokenExts, List.foldl_cons, ← clearTokenExts]
    refine ih _ ?_
    by_cases hmn : n = m
    · subst hmn; rw [Token.getExt_setExt_self]
    · rw [Token.getExt_setExt_ne t m n false hmn]; exact ht

theorem clearTokenExts_getExt_mem (names : List String) (n : String) (hn : n ∈ names) :
    ∀ t : Token, (clearTokenExts names t).getExt n = false := by
  induction names with
  | nil => exact absurd hn (List.not_mem_nil n)
  | cons m rest ih =>
    intro t
    rw [clearTokenExts, List.foldl_cons, ← clearTokenExts]
    rcases List.mem_cons.mp hn with he | hm
    · subst he
      exact clearTokenExts_preserves_false rest n _ (Token.getExt_setExt_self t n false)
    · exact ih hm _

theorem clearTokenExts_getExt_not_mem (names : List String) (n : String) (hn : n ∉ names) :
    ∀ t : Token, (clearTokenExts names t).getExt n = t.getExt n := by
  induction names with
  | nil => intro t; rfl
  | cons m rest ih =>
    intro t
    rw [clearTokenExts, List.foldl_cons, ← clearTokenExts]
    have hnm : n ≠ m := fun he => hn (he ▸ List.mem_cons_self m rest)
    rw [ih (fun hm => hn (List.mem_cons_of_mem m hm)) _, Token.getExt_setExt_ne t m n false hnm]

theorem setExtensionForce_idem (reg : ExtRegistry) (n : String) (s : ExtSpec) :
    setExtensionForce (setExtensionForce reg n s) n s = setExtensionForce reg n s := by
  unfold setExtensionForce
  rw [List.filter_cons]
  simp only [bne_self_eq_false, cond_false, Bool.false_eq_true, if_false]
  rw [filter_key_ne_idem]

/-! ### Claim theorems -/

/-- C1: for every doc, `MatcherComponent.__call__` runs the injected matcher
on the doc, sets the component's token flag over the matched spans, merges
the matched spans exactly when `merge_on_match` is set, and returns the very
same `Doc` object it was given — same object identity, a mutation rather
than a copy — so it can be handed to the next pipeline component. -/
theorem call_returns_same_doc_object (c : MatcherComponent) (doc : Doc) :
    (c.call doc).id = doc.id ∧
    (c.mergeOnMatch = false →
      c.call doc = doc.flagMatches c.isAttribute (c.matcher doc)) ∧
    (c.mergeOnMatch = true →
      (c.call doc).tokens
        = retokenizeAll (doc.flagMatches c.isAttribute (c.matcher doc)).tokens
            (spansOfMatches (c.matcher doc))) :=
  ⟨MatcherComponent.call_id c doc,
   fun h => MatcherComponent.call_eq_flag_of_not_merge c doc h,
   fun h => MatcherComponent.call_tokens_of_merge c doc h⟩

theorem call_returns_same_doc_object_witness :
    exComponentNoMerge.mergeOnMatch = false ∧
    exComponentNoMerge.call exDoc
      = exDoc.flagMatches exComponentNoMerge.isAttribute (exComponentNoMerge.matcher exDoc) :=
  ⟨rfl, (call_returns_same_doc_object exComponentNoMerge exDoc).2.1 rfl⟩

/-- C2: for every match `(match_id, start, end)` returned by the matcher,
every token with index in `[start, end)` has its `is_<attribute_name>`
extension set to `True` by `__call__`: the flag pass of `__call__` sets it
(this is the doc state the merges are then applied to when `merge_on_match`
is `True`), and with `merge_on_match` `False` the returned doc itself
carries the flag. -/
theorem call_flags_matched_tokens (c : MatcherComponent) (doc : Doc)
    (mid s e i : Nat) (hm : (mid, s, e) ∈ c.matcher doc) (hs : s ≤ i) (he : i < e)
    (h2 : i < (doc.flagMatches c.isAttribute (c.matcher doc)).tokens.length) :
    ((doc.flagMatches c.isAttribute (c.matcher doc)).tokens.get ⟨i, h2⟩).getExt
        c.isAttribute = true ∧
    (c.mergeOnMatch = false →
      ∀ h3 : i < (c.call doc).tokens.length,
        ((c.call doc).tokens.get ⟨i, h3⟩).getExt c.isAttribute = true) := by
  have hflag : ∀ h2' : i < (doc.flagMatches c.isAttribute (c.matcher doc)).tokens.length,
      ((doc.flagMatches c.isAttribute (c.matcher doc)).tokens.get ⟨i, h2'⟩).getExt
        c.isAttribute = true := by
    intro h2'
    refine Doc.updateRanges_establishes _ (fun t => t.getExt c.isAttribute = true)
      (fun t => Token.getExt_setExt_self t _ true) _ doc i h2' ?_
    exact ⟨(s, e), List.mem_map.mpr ⟨(mid, s, e), hm, rfl⟩, hs, he⟩
  refine ⟨hflag h2, ?_⟩
  intro hM
  rw [MatcherComponent.call_eq_flag_of_not_merge c doc hM]
  exact hflag

theorem call_flags_matched_tokens_witness :
    ((exDoc.flagMatches exComponent.isAttribute (exComponent.matcher exDoc)).tokens.get
        ⟨1, by decide⟩).getExt exComponent.isAttribute = true :=
  (call_flags_matched_tokens exComponent exDoc 5 0 2 1 (by decide) (by decide) (by decide)
    (by decide)).1

/-- C3: when `merge_on_match` is `True` and the matcher found at least one
match, `__call__` merges each matched span `doc[start:end]` into a single
token, all inside one retokenize block over the tokenization at block entry:
the resulting token list is exactly the flagged token list with every
matched span replaced, in place, by its single merged token. -/
theorem call_merges_matched_spans (c : MatcherComponent) (doc : Doc)
    (hM : c.mergeOnMatch = true) (_hne : c.matcher doc ≠ [])
    (hok : spansSorted 0 doc.tokens.length (spansOfMatches (c.matcher doc)) = true) :
    (c.call doc).tokens
      = mergedSpec (doc.flagMatches c.isAttribute (c.matcher doc)).tokens
          (spansOfMatches (c.matcher doc)) := by
  rw [MatcherComponent.call_tokens_of_merge c doc hM]
  refine retokenizeAll_eq_mergedSpec _ _ 0 doc.tokens.length hok ?_
  exact Doc.updateRanges_length _ _ doc

theorem call_merges_matched_spans_witness :
    (exComponent.call exDoc).tokens
      = mergedSpec (exDoc.flagMatches exComponent.isAttribute (exComponent.matcher exDoc)).tokens
          (spansOfMatches (exComponent.matcher exDoc)) :=
  call_merges_matched_spans exComponent exDoc rfl (by decide) (by decide)

/-- C4: the `has_<attribute_name>` getter evaluates to `True` on a doc or
span exactly when at least one of its tokens has the `is_<attribute_name>`
extension `True`; on an empty span it is `False`. -/
theorem get_attribute_iff (c : MatcherComponent) (span : List Token) :
    (c.get_attribute span = true ↔ ∃ t ∈ span, t.getExt c.isAttribute = true) ∧
    c.get_attribute [] = false := by
  constructor
  · simp [MatcherComponent.get_attribute, List.any_eq_true]
  · rfl

/-- C5: `remove_tokens_custom_attributes` assigns `False` to every registered
token extension of every token of every listed span — the registrations
themselves survive, only the values are cleared — and changes nothing else:
object identity, tokenization, token texts, unregistered attribute values
and the tokens outside the listed spans are all untouched. -/
theorem remove_tokens_custom_attributes_spec (names : List String) (doc : Doc)
    (spans : List (Nat × Nat)) :
    (remove_tokens_custom_attributes names doc spans).id = doc.id ∧
    (remove_tokens_custom_attributes names doc spans).tokens.length = doc.tokens.length ∧
    ∀ i (h1 : i < doc.tokens.length)
      (h2 : i < (remove_tokens_custom_attributes names doc spans).tokens.length),
      ((remove_tokens_custom_attributes names doc spans).tokens.get ⟨i, h2⟩).text
          = (doc.tokens.get ⟨i, h1⟩).text ∧
      (∀ n ∈ names, (∃ r ∈ spans, r.1 ≤ i ∧ i < r.2) →
        ((remove_tokens_custom_attributes names doc spans).tokens.get ⟨i, h2⟩).getExt n
          = false) ∧
      (∀ n, n ∉ names →
        ((remove_tokens_custom_attributes names doc spans).tokens.get ⟨i, h2⟩).getExt n
          = (doc.tokens.get ⟨i, h1⟩).getExt n) ∧
      ((∀ r ∈ spans, i < r.1 ∨ r.2 ≤ i) →
        (remove_tokens_custom_attributes names doc spans).tokens.get ⟨i, h2⟩
          = doc.tokens.get ⟨i, h1⟩) := by
  refine ⟨Doc.updateRanges_id _ _ doc, Doc.updateRanges_length _ _ doc, ?_⟩
  intro i h1 h2
  refine ⟨?_, ?_, ?_, ?_⟩
  · exact Doc.updateRanges_preserves _ (fun t => t.text = (doc.tokens.get ⟨i, h1⟩).text)
      (fun t ht => (clearTokenExts_text names t).trans ht) spans doc i h1 h2 rfl
  · intro n hn hex
    exact Doc.updateRanges_establishes _ (fun t => t.getExt n = false)
      (clearTokenExts_getExt_mem names n hn) spans doc i h2 hex
  · intro n hn
    exact Doc.updateRanges_preserves _
      (fun t => t.getExt n = (doc.tokens.get ⟨i, h1⟩).getExt n)
      (fun t ht => (clearTokenExts_getExt_not_mem names n hn t).trans ht)
      spans doc i h1 h2 rfl
  · exact Doc.updateRanges_outside _ spans doc i h1 h2

theorem remove_tokens_custom_attributes_spec_witness :
    ((remove_tokens_custom_attributes ["is_email"] exDoc2 [(0, 2)]).tokens.get
        ⟨0, by decide⟩).getExt "is_email" = false :=
  ((remove_tokens_custom_attributes_spec ["is_email"] exDoc2 [(0, 2)]).2.2 0 (by decide)
    (by decide)).2.1 "is_email" (by decide) ⟨(0, 2), by decide, by decide, by decide⟩

/-- C6: when the matcher returns no match, `__call__` leaves the doc
completely unchanged — no flag is touched, no retokenization happens, and
the unmodified doc itself is returned. -/
theorem call_no_matches_leaves_doc_unchanged (c : MatcherComponent) (doc : Doc)
    (h : c.matcher doc = []) : c.call doc = doc :=
  MatcherComponent.call_eq_of_empty c doc h

theorem call_no_matches_leaves_doc_unchanged_witness :
    exComponentNoMatch.call exDoc = exDoc :=
  call_no_matches_leaves_doc_unchanged exComponentNoMatch exDoc rfl

/-- C7: with `merge_on_match` `False`, `__call__` never retokenizes: the
token count is unchanged, every token keeps its text (so the token
boundaries are identical), and the only state that may change is the
`is_<attribute_name>` flag of tokens inside matched spans — any other
attribute of any token, and every token outside all matched spans, is
untouched. -/
theorem call_no_merge_frame (c : MatcherComponent) (doc : Doc)
    (hM : c.mergeOnMatch = false) :
    (c.call doc).id = doc.id ∧
    (c.call doc).tokens.length = doc.tokens.length ∧
    ∀ i (h1 : i < doc.tokens.length) (h2 : i < (c.call doc).tokens.length),
      ((c.call doc).tokens.get ⟨i, h2⟩).text = (doc.tokens.get ⟨i, h1⟩).text ∧
      (∀ n, n ≠ c.isAttribute →
        ((c.call doc).tokens.get ⟨i, h2⟩).getExt n = (doc.tokens.get ⟨i, h1⟩).getExt n) ∧
      ((∀ m ∈ c.matcher doc, i < m.2.1 ∨ m.2.2 ≤ i) →
        (c.call doc).tokens.get ⟨i, h2⟩ = doc.tokens.get ⟨i, h1⟩) := by
  rw [MatcherComponent.call_eq_flag_of_not_merge c doc hM]
  refine ⟨Doc.updateRanges_id _ _ doc, Doc.updateRanges_length _ _ doc, ?_⟩
  intro i h1 h2
  refine ⟨?_, ?_, ?_⟩
  · exact Doc.updateRanges_preserves _ (fun t => t.text = (doc.tokens.get ⟨i, h1⟩).text)
      (fun t ht => (Token.text_setExt t _ true).trans ht) _ doc i h1 h2 rfl
  · intro n hn
    exact Doc.updateRanges_preserves _
      (fun t => t.getExt n = (doc.tokens.get ⟨i, h1⟩).getExt n)
      (fun t ht => (Token.getExt_setExt_ne t _ n true hn).trans ht) _ doc i h1 h2 rfl
  · intro hout
    refine Doc.updateRanges_outside _ _ doc i h1 h2 ?_
    intro r hr
    obtain ⟨m, hm, hme⟩ := List.mem_map.mp hr
    subst hme
    exact hout m hm

theorem call_no_merge_frame_witness :
    (exComponentNoMerge.call exDoc).tokens.length = exDoc.tokens.length :=
  (call_no_merge_frame exComponentNoMerge exDoc rfl).2.1

/-- C8: the repository's two near-duplicate component implementations have
identical observable behaviour on every doc: the second one, which derives
its attribute names differently and builds its matcher from injected
patterns, computes exactly what `MatcherComponent.__call__` computes once
its compiled matcher and attribute names are matched up. -/
theorem alt_component_call_equiv (alt : AltMatcherComponent) (component_name : String)
    (doc : Doc) :
    alt.call doc
      = MatcherComponent.call
          { matcher := alt.compile alt.patterns
            name := component_name
            isAttribute := alt.isAttribute
            hasAttribute := alt.hasAttribute
            mergeOnMatch := alt.mergeOnMatch } doc := rfl

/-- C9: the constructor derives and registers exactly three extensions —
`is_<attribute_name>` on tokens with default `False`, and
`has_<attribute_name>` on docs and on spans backed by the `get_attribute`
getter — all through `set_extension` with `force=True`, so a second
construction with the same `attribute_name` silently overwrites the
earlier registrations instead of raising. -/
theorem init_registers_extensions (matcher : Doc → List (Nat × Nat × Nat))
    (component_name attribute_name : String) (merge_on_match : Bool)
    (st : ExtensionState) :
    (MatcherComponent.init matcher component_name attribute_name merge_on_match st).1.isAttribute
        = "is_" ++ attribute_name ∧
    (MatcherComponent.init matcher component_name attribute_name merge_on_match st).1.hasAttribute
        = "has_" ++ attribute_name ∧
    set_extension st.tokenExts ("is_" ++ attribute_name) (ExtSpec.boolDefault false) true
        = some (MatcherComponent.init matcher component_name attribute_name merge_on_match st).2.tokenExts ∧
    set_extension st.docExts ("has_" ++ attribute_name)
        (ExtSpec.getter ("is_" ++ attribute_name)) true
        = some (MatcherComponent.init matcher component_name attribute_name merge_on_match st).2.docExts ∧
    set_extension st.spanExts ("has_" ++ attribute_name)
        (ExtSpec.getter ("is_" ++ attribute_name)) true
        = some (MatcherComponent.init matcher component_name attribute_name merge_on_match st).2.spanExts ∧
    (MatcherComponent.init matcher component_name attribute_name merge_on_match st).2.tokenExts.lookup
        ("is_" ++ attribute_name) = some (ExtSpec.boolDefault false) ∧
    (MatcherComponent.init matcher component_name attribute_name merge_on_match st).2.docExts.lookup
        ("has_" ++ attribute_name) = some (ExtSpec.getter ("is_" ++ attribute_name)) ∧
    (MatcherComponent.init matcher component_name attribute_name merge_on_match st).2.spanExts.lookup
        ("has_" ++ attribute_name) = some (ExtSpec.getter ("is_" ++ attribute_name)) ∧
    (∀ n, n ≠ "is_" ++ attribute_name →
      (MatcherComponent.init matcher component_name attribute_name merge_on_match st).2.tokenExts.lookup n
        = st.tokenExts.lookup n) ∧
    (∀ n, n ≠ "has_" ++ attribute_name →
      (MatcherComponent.init matcher component_name attribute_name merge_on_match st).2.docExts.lookup n
          = st.docExts.lookup n ∧
      (MatcherComponent.init matcher component_name attribute_name merge_on_match st).2.spanExts.lookup n
          = st.spanExts.lookup n) ∧
    (∀ (matcher2 : Doc → List (Nat × Nat × Nat)) (component_name2 : String)
        (merge_on_match2 : Bool),
      (MatcherComponent.init matcher2 component_name2 attribute_name merge_on_match2
          (MatcherComponent.init matcher component_name attribute_name merge_on_match st).2).2
        = (MatcherComponent.init matcher component_name attribute_name merge_on_match st).2) := by
  refine ⟨rfl, rfl, ?_, ?_, ?_, ?_, ?_, ?_, ?_, ?_, ?_⟩
  · rw [set_extension_force_eq]; rfl
  · rw [set_extension_force_eq]; rfl
  · rw [set_extension_force_eq]; rfl
  · show (setExtensionForce st.tokenExts ("is_" ++ attribute_name)
        (ExtSpec.boolDefault false)).lookup ("is_" ++ attribute_name)
      = some (ExtSpec.boolDefault false)
    simp [setExtensionForce, List.lookup]
  · show (setExtensionForce st.docExts ("has_" ++ attribute_name)
        (ExtSpec.getter ("is_" ++ attribute_name))).lookup ("has_" ++ attribute_name)
      = some (ExtSpec.getter ("is_" ++ attribute_name))
    simp [setExtensionForce, List.lookup]
  · show (setExtensionForce st.spanExts ("has_" ++ attribute_name)
        (ExtSpec.getter ("is_" ++ attribute_name))).lookup ("has_" ++ attribute_name)
      = some (ExtSpec.getter ("is_" ++ attribute_name))
    simp [setExtensionForce, List.lookup]
  · intro n hn
    have h2 : (n == "is_" ++ attribute_name) = false := beq_eq_false_iff_ne.mpr hn
    show (setExtensionForce st.tokenExts ("is_" ++ attribute_name)
      (ExtSpec.boolDefault false)).lookup n = st.tokenExts.lookup n
    rw [setExtensionForce]
    rw [List.lookup]
    simp only [h2]
    exact lookup_filter_ne st.tokenExts _ n hn
  · intro n hn
    have h2 : (n == "has_" ++ attribute_name) = false := beq_eq_false_iff_ne.mpr hn
    constructor
    · show (setExtensionForce st.docExts ("has_" ++ attribute_name)
        (ExtSpec.getter ("is_" ++ attribute_name))).lookup n = st.docExts.lookup n
      rw [setExtensionForce, List.lookup]
      simp only [h2]
      exact lookup_filter_ne st.docExts _ n hn
    · show (setExtensionForce st.spanExts ("has_" ++ attribute_name)
        (ExtSpec.getter ("is_" ++ attribute_name))).lookup n = st.spanExts.lookup n
      rw [setExtensionForce, List.lookup]
      simp only [h2]
      exact lookup_filter_ne st.spanExts _ n hn
  · intro matcher2 component_name2 merge_on_match2
    show ExtensionState.mk
        (setExtensionForce (setExtensionForce st.tokenExts ("is_" ++ attribute_name)
          (ExtSpec.boolDefault false)) ("is_" ++ attribute_name) (ExtSpec.boolDefault false))
        (setExtensionForce (setExtensionForce st.docExts ("has_" ++ attribute_name)
          (ExtSpec.getter ("is_" ++ attribute_name))) ("has_" ++ attribute_name)
          (ExtSpec.getter ("is_" ++ attribute_name)))
        (setExtensionForce (setExtensionForce st.spanExts ("has_" ++ attribute_name)
          (ExtSpec.getter ("is_" ++ attribute_name))) ("has_" ++ attribute_name)
          (ExtSpec.getter ("is_" ++ attribute_name)))
      = ExtensionState.mk
        (setExtensionForce st.tokenExts ("is_" ++ attribute_name) (ExtSpec.boolDefault false))
        (setExtensionForce st.docExts ("has_" ++ attribute_name)
          (ExtSpec.getter ("is_" ++ attribute_name)))
        (setExtensionForce st.spanExts ("has_" ++ attribute_name)
          (ExtSpec.getter ("is_" ++ attribute_name)))
    rw [setExtensionForce_idem, setExtensionForce_idem, setExtensionForce_idem]

theorem init_registers_extensions_witness :
    (MatcherComponent.init exMatcherFn "email_component" "email" true exState).2.tokenExts.lookup
        "other" = exState.tokenExts.lookup "other" :=
  (init_registers_extensions exMatcherFn "email_component" "email" true
    exState).2.2.2.2.2.2.2.2.1 "other" (by decide)

/-- C10: clearing the custom attributes of a list of spans and then reading
the component's `has_<attribute_name>` getter on any of those spans yields
`False`, provided the component's token attribute is among the registered
token extensions being cleared. -/
theorem remove_then_get_attribute_false (c : MatcherComponent) (names : List String)
    (doc : Doc) (spans : List (Nat × Nat)) (s e : Nat)
    (hmem : (s, e) ∈ spans) (hreg : c.isAttribute ∈ names) :
    c.get_attribute
      ((remove_tokens_custom_attributes names doc spans).spanTokens s e) = false := by
  have hall : ∀ t ∈ (remove_tokens_custom_attributes names doc spans).spanTokens s e,
      t.getExt c.isAttribute = false := by
    intro t ht
    rw [Doc.spanTokens] at ht
    obtain ⟨⟨j, hj⟩, hget⟩ := List.mem_iff_get.mp ht
    have hjm := hj
    rw [List.length_take] at hjm
    have hjd : j < ((remove_tokens_custom_attributes names doc spans).tokens.drop s).length := by
      omega
    have hjdl := hjd
    rw [List.length_drop] at hjdl
    have hj2 : s + j < (remove_tokens_custom_attributes names doc spans).tokens.length := by
      omega
    have hje : j < e - s := by omega
    have hgd : (((remove_tokens_custom_attributes names doc spans).tokens.drop s).take
          (e - s)).get ⟨j, hj⟩
        = (remove_tokens_custom_attributes names doc spans).tokens.get ⟨s + j, hj2⟩ := by
      rw [List.get_eq_getElem, List.get_eq_getElem]
      simp only [List.getElem_take, List.getElem_drop]
    rw [← hget, hgd]
    refine Doc.updateRanges_establishes _ (fun t => t.getExt c.isAttribute = false)
      (clearTokenExts_getExt_mem names c.isAttribute hreg) spans doc (s + j) hj2 ?_
    exact ⟨(s, e), hmem, Nat.le_add_right s j, by omega⟩
  rw [MatcherComponent.get_attribute]
  rw [List.any_eq_false]
  intro b hb
  obtain ⟨t, ht, hbt⟩ := List.mem_map.mp hb
  rw [← hbt]
  simp [hall t ht]

theorem remove_then_get_attribute_false_witness :
    exComponent.get_attribute
      ((remove_tokens_custom_attributes ["is_email"] exDoc2 [(0, 2)]).spanTokens 0 2) = false :=
  remove_then_get_attribute_false exComponent ["is_email"] exDoc2 [(0, 2)] 0 2 (by decide)
    (by decide)

end Vega
